import Mathlib

/-!
# Shallow embedding of the mmids-core Reactor

This file embeds `src/mmids-core/src/reactors/reactor.rs` as a state machine.
The actor's async runtime (tokio tasks, channels, `FuturesUnordered`) is the
environment: every completion the Rust loop can receive (`FutureResult`) is an
event, an execution is a list of events, and the actor is a pure transition
function from a state and an event to a new state plus the externally
observable output of that step (channel sends, armed watcher tasks, spawned
executor futures, and whether the loop continues).  Channel endpoints are
modelled by opaque numeric identities.
-/

namespace MmidsReactor

/-- Identity of a channel endpoint.  Oneshot senders/receivers and unbounded
senders are modelled by opaque numeric identities; delivery and closure are
part of the event trace, not of the actor state. -/
abbrev ChannelId := Nat

/-- Modelled from the spec: `WorkflowDefinition` is defined in
`workflows/definitions.rs`, which is not among the sources; per the spec it is
an opaque value with at minimum a `name` field (string).  The field `rest`
abstracts the remaining opaque payload, so two definitions with equal names
need not be equal definitions. -/
structure WorkflowDefinition where
  name : String
  rest : Nat
deriving DecidableEq

/-- Modelled from the spec: the operations of a `WorkflowManagerRequest`
(`workflows/manager.rs` is not among the sources): `UpsertWorkflow
{ definition }` and `StopWorkflow { name }`. -/
inductive WorkflowManagerRequestOperation where
  | UpsertWorkflow (definition : WorkflowDefinition)
  | StopWorkflow (name : String)
deriving DecidableEq

/-- Modelled from the spec: `WorkflowManagerRequest { request_id: string,
operation: Op }`. -/
structure WorkflowManagerRequest where
  request_id : String
  operation : WorkflowManagerRequestOperation
deriving DecidableEq

/-- Modelled from the spec: the single event kind delivered through the
event-hub subscription, carrying the newly registered manager handle. -/
inductive WorkflowManagerEvent where
  | WorkflowManagerRegistered (channel : ChannelId)
deriving DecidableEq

/-- `ReactorRequest` from the source.  The oneshot response sender and the
keep-alive receiver are modelled by their channel identities. -/
inductive ReactorRequest where
  | CreateWorkflowNameForStream (stream_name : String) (response_channel : ChannelId)
      (keep_alive_channel : ChannelId)
deriving DecidableEq

/-- `CachedWorkflow` from the source. -/
structure CachedWorkflow where
  definition : WorkflowDefinition
  keep_alive_count : Nat
deriving DecidableEq

/-- `FutureResult` from the source: the completions the actor loop can
receive.  In the Rust code `RequestReceived` and
`WorkflowManagerEventReceived` also carry the receiver back so the loop can
re-arm it; re-arming is implicit in the trace semantics here. -/
inductive FutureResult where
  | AllRequestConsumersGone
  | EventHubGone
  | WorkflowManagerGone
  | RequestReceived (request : ReactorRequest)
  | ExecutorResponseReceived (stream_name : String) (workflow : Option WorkflowDefinition)
      (keep_alive_channel : ChannelId)
  | WorkflowManagerEventReceived (event : WorkflowManagerEvent)
  | KeepAliveChannelClosed (stream_name : String)
deriving DecidableEq

/-- Association-list model of `std::collections::HashMap`: lookup. -/
def mapFind {β : Type} (m : List (String × β)) (k : String) : Option β :=
  match m with
  | [] => none
  | (k', v) :: rest => if k' = k then some v else mapFind rest k

/-- Association-list model of `HashMap::insert` (also covers in-place update
through `get_mut`): replaces the binding when the key is present, otherwise
appends it. -/
def mapInsert {β : Type} (m : List (String × β)) (k : String) (v : β) :
    List (String × β) :=
  match m with
  | [] => [(k, v)]
  | (k', v') :: rest =>
    if k' = k then (k, v) :: rest else (k', v') :: mapInsert rest k v

/-- Association-list model of `HashMap::remove`. -/
def mapRemove {β : Type} (m : List (String × β)) (k : String) :
    List (String × β) :=
  match m with
  | [] => []
  | (k', v') :: rest => if k' = k then rest else (k', v') :: mapRemove rest k

/-- The `Actor` state from the source.  The executor object and the
`FuturesUnordered` set are environment: spawned futures and armed watchers
appear as step outputs, and their completions come back as events. -/
structure Actor where
  name : String
  active_requests : List (String × ChannelId)
  workflow_manager : Option ChannelId
  cached_workflows : List (String × CachedWorkflow)
deriving DecidableEq

/-- A send on a workflow-manager handle.  `forStream` is a ghost annotation
recording which cache key the send concerns (the `stream_name` at the emission
site); it is not part of the Rust message. -/
structure ManagerSend where
  channel : ChannelId
  forStream : String
  request : WorkflowManagerRequest
deriving DecidableEq

/-- The externally observable output of one loop iteration. -/
structure StepOutput where
  /-- `false` exactly when the handler `break`s out of the loop. -/
  continues : Bool
  /-- Sends attempted on a workflow-manager handle, in order. -/
  managerSends : List ManagerSend
  /-- Reply attempts on oneshot response channels. -/
  replies : List (ChannelId × Option String)
  /-- `notify_when_keep_alive_closed` watchers armed this step. -/
  armedKeepAlive : List (ChannelId × String)
  /-- `notify_workflow_manager_gone` watchers armed this step. -/
  armedManagerGone : List ChannelId
  /-- Executor futures spawned this step (stream name, keep-alive channel). -/
  spawnedExecutors : List (String × ChannelId)
deriving DecidableEq

/-- Output of a step that `break`s: nothing sent, loop ends. -/
def haltOutput : StepOutput :=
  { continues := false, managerSends := [], replies := [], armedKeepAlive := []
    armedManagerGone := [], spawnedExecutors := [] }

/-- Output of a step that sends nothing and continues. -/
def continueOutput : StepOutput :=
  { continues := true, managerSends := [], replies := [], armedKeepAlive := []
    armedManagerGone := [], spawnedExecutors := [] }

/-- `Actor::new` (the state part): empty pending table, no manager handle,
empty cache.  The constructor also arms the inbox waiter and sends the
subscription request; both are environment here.  The `let _ =` on the
subscription send means a failed send is swallowed and the actor state is the
same either way. -/
def Actor.new (name : String) : Actor :=
  { name := name, active_requests := [], workflow_manager := none
    cached_workflows := [] }

/-- `Actor::handle_request`: record the pending reply channel (overwriting any
previous one for the same stream name) and spawn an executor future tied to
the stream name and keep-alive channel. -/
def Actor.handle_request (a : Actor) (request : ReactorRequest) : Actor × StepOutput :=
  match request with
  | .CreateWorkflowNameForStream stream_name response_channel keep_alive_channel =>
    ({ a with active_requests := mapInsert a.active_requests stream_name response_channel },
     { continueOutput with spawnedExecutors := [(stream_name, keep_alive_channel)] })

/-- `Actor::handle_executor_response`.  The pending entry is removed first; if
none exists the response is an orphan: an error is logged and nothing else
happens.  On `Some(workflow)` the cache is bumped, a keep-alive watcher is
armed, an upsert is attempted when a manager handle is registered, and one
reply attempt carrying the workflow name is made.  On `None` one reply attempt
carrying `None` is made. -/
def Actor.handle_executor_response (a : Actor) (stream_name : String)
    (workflow : Option WorkflowDefinition) (keep_alive_channel : ChannelId) :
    Actor × StepOutput :=
  match mapFind a.active_requests stream_name with
  | none => (a, continueOutput)
  | some channel =>
    let a' := { a with active_requests := mapRemove a.active_requests stream_name }
    match workflow with
    | some workflow =>
      let workflow_name := workflow.name
      let cached :=
        match mapFind a'.cached_workflows stream_name with
        | some cache =>
          mapInsert a'.cached_workflows stream_name
            { definition := workflow, keep_alive_count := cache.keep_alive_count + 1 }
        | none =>
          mapInsert a'.cached_workflows stream_name
            { definition := workflow, keep_alive_count := 1 }
      let sends :=
        match a'.workflow_manager with
        | some manager =>
          [{ channel := manager, forStream := stream_name
             request :=
               { request_id := "reactor_" ++ a'.name ++ "_stream_" ++ stream_name
                 operation := .UpsertWorkflow workflow } }]
        | none => []
      ({ a' with cached_workflows := cached },
       { continueOutput with
           managerSends := sends
           replies := [(channel, some workflow_name)]
           armedKeepAlive := [(keep_alive_channel, stream_name)] })
    | none =>
      (a', { continueOutput with replies := [(channel, none)] })

/-- `Actor::handle_workflow_manager_event`: on registration, arm a
manager-gone watcher for the new handle, send one catch-up upsert per cached
workflow on that handle, and store the handle. -/
def Actor.handle_workflow_manager_event (a : Actor) (event : WorkflowManagerEvent) :
    Actor × StepOutput :=
  match event with
  | .WorkflowManagerRegistered channel =>
    ({ a with workflow_manager := some channel },
     { continueOutput with
         managerSends :=
           a.cached_workflows.map fun p =>
             { channel := channel, forStream := p.1
               request :=
                 { request_id := "reactor_" ++ a.name ++ "_cache_catchup"
                   operation := .UpsertWorkflow p.2.definition } }
         armedManagerGone := [channel] })

/-- `Actor::handle_keep_alive_closed`: decrement the refcount of the entry for
the stream (no-op when there is none); at zero, attempt a `StopWorkflow` with
the removed entry's definition name when a manager handle is registered, and
remove the entry. -/
def Actor.handle_keep_alive_closed (a : Actor) (stream_name : String) :
    Actor × StepOutput :=
  match mapFind a.cached_workflows stream_name with
  | none => (a, continueOutput)
  | some cache =>
    let newCount := cache.keep_alive_count - 1
    if newCount = 0 then
      let sends :=
        match a.workflow_manager with
        | some channel =>
          [{ channel := channel, forStream := stream_name
             request :=
               { request_id := "from_reactor"
                 operation := .StopWorkflow cache.definition.name } }]
        | none => []
      ({ a with cached_workflows := mapRemove a.cached_workflows stream_name },
       { continueOutput with managerSends := sends })
    else
      ({ a with
           cached_workflows :=
             mapInsert a.cached_workflows stream_name
               { cache with keep_alive_count := newCount } },
       continueOutput)

/-- One iteration of `Actor::run`'s loop: dispatch on the completed future.
The three `break` arms produce `haltOutput`. -/
def step (a : Actor) (result : FutureResult) : Actor × StepOutput :=
  match result with
  | .AllRequestConsumersGone => (a, haltOutput)
  | .EventHubGone => (a, haltOutput)
  | .WorkflowManagerGone => (a, haltOutput)
  | .KeepAliveChannelClosed stream_name => a.handle_keep_alive_closed stream_name
  | .RequestReceived request => a.handle_request request
  | .ExecutorResponseReceived stream_name workflow keep_alive_channel =>
    a.handle_executor_response stream_name workflow keep_alive_channel
  | .WorkflowManagerEventReceived event => a.handle_workflow_manager_event event

/-- A trace triple: the state before a step, the event consumed, and the
step's output. -/
abbrev Triple := Actor × FutureResult × StepOutput

/-- Run the loop on a list of events, recording for each consumed event the
pre-state, the event and the output.  A `break` step is recorded and ends the
trace; later events are never consumed, as in the source loop. -/
def trace (a : Actor) : List FutureResult → List Triple
  | [] => []
  | e :: es =>
    let p := step a e
    if p.2.continues then (a, e, p.2) :: trace p.1 es else [(a, e, p.2)]

/-- The trace of a reactor named `name` started by `start_reactor`, on a list
of events. -/
def runTrace (name : String) (es : List FutureResult) : List Triple :=
  trace (Actor.new name) es

/-! ## Association-list lemmas -/

theorem mapFind_insert_self {β : Type} (m : List (String × β)) (k : String) (v : β) :
    mapFind (mapInsert m k v) k = some v := by
  induction m with
  | nil => simp [mapInsert, mapFind]
  | cons p rest ih =>
    obtain ⟨a, b⟩ := p
    by_cases ha : a = k
    · simp [mapInsert, mapFind, ha]
    · simp [mapInsert, mapFind, ha, ih]

theorem mapFind_insert_ne {β : Type} (m : List (String × β)) (k k' : String) (v : β)
    (h : k' ≠ k) : mapFind (mapInsert m k v) k' = mapFind m k' := by
  induction m with
  | nil => simp [mapInsert, mapFind, Ne.symm h]
  | cons p rest ih =>
    obtain ⟨a, b⟩ := p
    by_cases ha : a = k
    · subst ha
      simp [mapInsert, mapFind, Ne.symm h]
    · by_cases ha' : a = k'
      · subst ha'
        simp [mapInsert, mapFind, ha]
      · simp [mapInsert, mapFind, ha, ha', ih]

theorem mapFind_remove_ne {β : Type} (m : List (String × β)) (k k' : String)
    (h : k' ≠ k) : mapFind (mapRemove m k) k' = mapFind m k' := by
  induction m with
  | nil => simp [mapRemove, mapFind]
  | cons p rest ih =>
    obtain ⟨a, b⟩ := p
    by_cases ha : a = k
    · subst ha
      simp [mapRemove, mapFind, Ne.symm h]
    · by_cases ha' : a = k'
      · subst ha'
        simp [mapRemove, mapFind, ha]
      · simp [mapRemove, mapFind, ha, ha', ih]

theorem mapFind_eq_none_of_not_mem_keys {β : Type} (m : List (String × β)) (k : String)
    (h : k ∉ m.map Prod.fst) : mapFind m k = none := by
  induction m with
  | nil => simp [mapFind]
  | cons p rest ih =>
    obtain ⟨a, b⟩ := p
    simp only [List.map_cons, List.mem_cons, not_or] at h
    simp [mapFind, Ne.symm h.1, ih h.2]

theorem mapFind_remove_self {β : Type} (m : List (String × β)) (k : String)
    (h : (m.map Prod.fst).Nodup) : mapFind (mapRemove m k) k = none := by
  induction m with
  | nil => simp [mapRemove, mapFind]
  | cons p rest ih =>
    obtain ⟨a, b⟩ := p
    simp only [List.map_cons, List.nodup_cons] at h
    by_cases ha : a = k
    · subst ha
      simp only [mapRemove, if_pos rfl]
      exact mapFind_eq_none_of_not_mem_keys rest a h.1
    · simp [mapRemove, mapFind, ha, ih h.2]

theorem mem_mapInsert {β : Type} {m : List (String × β)} {k : String} {v : β}
    {q : String × β} (h : q ∈ mapInsert m k v) : q = (k, v) ∨ q ∈ m := by
  induction m with
  | nil =>
    simp only [mapInsert, List.mem_singleton] at h
    exact .inl h
  | cons p rest ih =>
    obtain ⟨a, b⟩ := p
    by_cases ha : a = k
    · simp only [mapInsert, if_pos ha] at h
      rcases List.mem_cons.mp h with h | h
      · exact .inl h
      · exact .inr (List.mem_cons.mpr (.inr h))
    · simp only [mapInsert, if_neg ha] at h
      rcases List.mem_cons.mp h with h | h
      · exact .inr (List.mem_cons.mpr (.inl h))
      · rcases ih h with h' | h'
        · exact .inl h'
        · exact .inr (List.mem_cons.mpr (.inr h'))

theorem mem_mapRemove {β : Type} {m : List (String × β)} {k : String}
    {q : String × β} (h : q ∈ mapRemove m k) : q ∈ m := by
  induction m with
  | nil => simp [mapRemove] at h
  | cons p rest ih =>
    obtain ⟨a, b⟩ := p
    by_cases ha : a = k
    · simp only [mapRemove, if_pos ha] at h
      exact List.mem_cons.mpr (.inr h)
    · simp only [mapRemove, if_neg ha] at h
      rcases List.mem_cons.mp h with h | h
      · exact List.mem_cons.mpr (.inl h)
      · exact List.mem_cons.mpr (.inr (ih h))

theorem mapFind_mem {β : Type} {m : List (String × β)} {k : String} {v : β}
    (h : mapFind m k = some v) : (k, v) ∈ m := by
  induction m with
  | nil => simp [mapFind] at h
  | cons p rest ih =>
    obtain ⟨a, b⟩ := p
    by_cases ha : a = k
    · subst ha
      simp [mapFind] at h
      subst h
      exact List.mem_cons.mpr (.inl rfl)
    · simp only [mapFind, if_neg ha] at h
      exact List.mem_cons.mpr (.inr (ih h))

theorem nodupKeys_mapInsert {β : Type} (m : List (String × β)) (k : String) (v : β)
    (h : (m.map Prod.fst).Nodup) : ((mapInsert m k v).map Prod.fst).Nodup := by
  induction m with
  | nil => simp [mapInsert]
  | cons p rest ih =>
    obtain ⟨a, b⟩ := p
    simp only [List.map_cons, List.nodup_cons] at h
    by_cases ha : a = k
    · subst ha
      have heq : mapInsert ((a, b) :: rest) a v = (a, v) :: rest := by
        simp [mapInsert]
      rw [heq, List.map_cons, List.nodup_cons]
      exact ⟨h.1, h.2⟩
    · have hnotmem : a ∉ (mapInsert rest k v).map Prod.fst := by
        intro hx
        rcases List.mem_map.mp hx with ⟨q, hq, hqa⟩
        rcases mem_mapInsert hq with h' | h'
        · rw [h'] at hqa
          exact ha (hqa ▸ rfl)
        · exact h.1 (List.mem_map.mpr ⟨q, h', hqa⟩)
      simp only [mapInsert, if_neg ha, List.map_cons, List.nodup_cons]
      exact ⟨hnotmem, ih h.2⟩

theorem nodupKeys_mapRemove {β : Type} (m : List (String × β)) (k : String)
    (h : (m.map Prod.fst).Nodup) : ((mapRemove m k).map Prod.fst).Nodup := by
  induction m with
  | nil => simp [mapRemove]
  | cons p rest ih =>
    obtain ⟨a, b⟩ := p
    simp only [List.map_cons, List.nodup_cons] at h
    by_cases ha : a = k
    · simpa [mapRemove, ha] using h.2
    · have hnotmem : a ∉ (mapRemove rest k).map Prod.fst := by
        intro hx
        rcases List.mem_map.mp hx with ⟨q, hq, hqa⟩
        exact h.1 (List.mem_map.mpr ⟨q, mem_mapRemove hq, hqa⟩)
      simp only [mapRemove, if_neg ha, List.map_cons, List.nodup_cons]
      exact ⟨hnotmem, ih h.2⟩

/-- Every cache entry's `keep_alive_count` is at least 1. -/
def countsPos (a : Actor) : Prop :=
  ∀ p ∈ a.cached_workflows, 1 ≤ p.2.keep_alive_count

/-- Sample workflow definition used by concrete witnesses. -/
def wfA : WorkflowDefinition := { name := "wfA", rest := 0 }

/-- Sample cache entry with refcount 1, used by concrete witnesses. -/
def entryA : CachedWorkflow := { definition := wfA, keep_alive_count := 1 }

/-- Sample actor with one pending request for `"camA"`, used by witnesses. -/
def actorPending : Actor :=
  { Actor.new "r1" with active_requests := [("camA", 10)] }

/-- Sample actor with a registered manager handle and `"camA"` cached at
refcount 1, used by witnesses. -/
def actorCached : Actor :=
  { Actor.new "r1" with
      workflow_manager := some 5, cached_workflows := [("camA", entryA)] }

/-- The state reached by the loop after consuming a list of events (stopping
at the first `break`, as `Actor::run` does). -/
def runState (a : Actor) : List FutureResult → Actor
  | [] => a
  | e :: es =>
    let p := step a e
    if p.2.continues then runState p.1 es else p.1

/-- Does this event deliver a workflow-manager event from the event-hub
subscription? -/
def isManagerEvent : FutureResult → Bool
  | .WorkflowManagerEventReceived _ => true
  | _ => false

/-- Is this operation an `UpsertWorkflow`? -/
def isUpsertOp : WorkflowManagerRequestOperation → Bool
  | .UpsertWorkflow _ => true
  | .StopWorkflow _ => false

/-- Is this operation a `StopWorkflow`? -/
def isStopOp : WorkflowManagerRequestOperation → Bool
  | .UpsertWorkflow _ => false
  | .StopWorkflow _ => true

/-- Does this step output attempt an `UpsertWorkflow` concerning stream `s`? -/
def sendsUpsertFor (out : StepOutput) (s : String) : Bool :=
  out.managerSends.any fun m => m.forStream == s && isUpsertOp m.request.operation

/-- Does this step output attempt a `StopWorkflow` concerning stream `s`? -/
def sendsStopFor (out : StepOutput) (s : String) : Bool :=
  out.managerSends.any fun m => m.forStream == s && isStopOp m.request.operation

/-- Is stream `s` present in the cache? -/
def inCache (a : Actor) (s : String) : Bool :=
  (mapFind a.cached_workflows s).isSome

/-- The cache's keys are duplicate-free (true of every reachable state, since
the source uses a `HashMap`). -/
def wfKeys (a : Actor) : Prop :=
  (a.cached_workflows.map Prod.fst).Nodup

/-- History invariant for the upsert-before-stop property: whenever a manager
handle is registered, every currently cached stream has had an
`UpsertWorkflow` attempt at some past step `j`, and has stayed in the cache at
every pre-state after `j`. -/
def InvC9 (a : Actor) (tr : List Triple) : Prop :=
  ∀ s, a.workflow_manager.isSome = true → inCache a s = true →
    ∃ j, ∃ hj : j < tr.length,
      sendsUpsertFor (tr.get ⟨j, hj⟩).2.2 s = true ∧
      ∀ k, ∀ hk : k < tr.length, j < k → inCache (tr.get ⟨k, hk⟩).1 s = true

/-- Per-trace statement of claim C9: every `StopWorkflow` attempt concerning
stream `s` happens at a step whose pre-state caches `s` and whose post-state
does not (so it ends the cache lifetime of `s`), and is preceded — within
that same lifetime — by at least one `UpsertWorkflow` attempt concerning
`s`. -/
def TraceOK (s : String) (tr : List Triple) : Prop :=
  ∀ i, ∀ hi : i < tr.length, sendsStopFor (tr.get ⟨i, hi⟩).2.2 s = true →
    inCache (tr.get ⟨i, hi⟩).1 s = true ∧
    inCache (step (tr.get ⟨i, hi⟩).1 (tr.get ⟨i, hi⟩).2.1).1 s = false ∧
    ∃ j, ∃ hj : j < tr.length, j ≤ i ∧ sendsUpsertFor (tr.get ⟨j, hj⟩).2.2 s = true ∧
      ∀ k, ∀ hk : k < tr.length, j < k → k ≤ i →
        inCache (tr.get ⟨k, hk⟩).1 s = true

/-- Concrete event list exercising the full lifecycle: request, manager
registration, executor response (upsert), keep-alive closure (stop). -/
def esC9 : List FutureResult :=
  [ .RequestReceived (.CreateWorkflowNameForStream "camA" 10 20)
  , .WorkflowManagerEventReceived (.WorkflowManagerRegistered 5)
  , .ExecutorResponseReceived "camA" (some wfA) 20
  , .KeepAliveChannelClosed "camA" ]

/-- Concrete event list for the double-request scenario of claim C2: two
requests for `"camA"` while the first executor call is outstanding, then both
executor responses. -/
def esC2 : List FutureResult :=
  [ .RequestReceived (.CreateWorkflowNameForStream "camA" 10 20)
  , .RequestReceived (.CreateWorkflowNameForStream "camA" 11 21)
  , .ExecutorResponseReceived "camA" (some wfA) 20
  , .ExecutorResponseReceived "camA" (some wfA) 21 ]

/-- Concrete event list for claim C10: one request and its response arrive,
then the event-hub delivery channel reports closed; no manager event ever
arrives because the subscription send failed. -/
def esC10 : List FutureResult :=
  [ .RequestReceived (.CreateWorkflowNameForStream "camA" 10 20)
  , .ExecutorResponseReceived "camA" (some wfA) 20
  , .EventHubGone ]

/-! ## Claims -/

/-- Claim C1, counterexample: the claim states that a manager-gone signal
never terminates the actor and that the actor instead sets its manager handle
to `None` and continues.  On the source (`reactor.rs` lines 124-127 `break`
out of the loop), at a concrete state holding a registered manager handle, the
step neither continues nor resets the handle. -/
theorem c1_manager_gone_counterexample :
    ¬ ((step { Actor.new "r1" with workflow_manager := some 5 }
          FutureResult.WorkflowManagerGone).2.continues = true ∧
       (step { Actor.new "r1" with workflow_manager := some 5 }
          FutureResult.WorkflowManagerGone).1.workflow_manager = none) := by
  decide

/-- Claim C1, amended: a manager-gone signal terminates the actor exactly like
closure of the request inbox or of the event-hub subscription: the loop
`break`s, the state (manager handle and cache included) is left untouched, and
nothing is sent. -/
theorem c1_manager_gone_terminates (a : Actor) :
    step a FutureResult.WorkflowManagerGone = (a, haltOutput) := rfl

/-- Claim C3: on every `WorkflowManagerRegistered` event the actor emits
exactly one `UpsertWorkflow` per current cache entry (zero for an empty
cache), each sent on the newly registered handle, with `request_id =
"reactor_{name}_cache_catchup"` and the cached definition; the handle is then
stored. -/
theorem c3_registration_replays_cache (a : Actor) (ch : ChannelId) :
    (step a (.WorkflowManagerEventReceived (.WorkflowManagerRegistered ch))).2.managerSends =
      a.cached_workflows.map (fun p =>
        { channel := ch, forStream := p.1
          request := { request_id := "reactor_" ++ a.name ++ "_cache_catchup"
                       operation := .UpsertWorkflow p.2.definition } }) ∧
    (step a (.WorkflowManagerEventReceived
        (.WorkflowManagerRegistered ch))).2.managerSends.length =
      a.cached_workflows.length ∧
    (step a (.WorkflowManagerEventReceived
        (.WorkflowManagerRegistered ch))).1.workflow_manager = some ch := by
  refine ⟨rfl, ?_, rfl⟩
  simp [step, Actor.handle_workflow_manager_event]

/-- Claim C7: an Executor response for a stream name absent from the pending
request table changes nothing: no reply, no manager send, no watcher, and the
actor state (cache included) is exactly as before. -/
theorem c7_orphan_response_no_change (a : Actor) (s : String)
    (w : Option WorkflowDefinition) (ka : ChannelId)
    (h : mapFind a.active_requests s = none) :
    step a (.ExecutorResponseReceived s w ka) = (a, continueOutput) := by
  simp [step, Actor.handle_executor_response, h]

/-- Witness for C7: the initial actor has no pending entry for `"camZ"`, and
an orphan response for it is a no-op. -/
theorem c7_orphan_response_no_change_witness :
    mapFind (Actor.new "r1").active_requests "camZ" = none ∧
    step (Actor.new "r1") (.ExecutorResponseReceived "camZ" none 0) =
      (Actor.new "r1", continueOutput) :=
  ⟨rfl, c7_orphan_response_no_change (Actor.new "r1") "camZ" none 0 rfl⟩

/-- Claim C8: an Executor response `None` for a stream with a pending entry
produces exactly one reply attempt carrying `None` and nothing else: the
pending entry is consumed, while the cache is untouched, no manager send is
attempted, and no keep-alive watcher is armed (so a later closure of that
keep-alive channel finds no cache entry and is a no-op). -/
theorem c8_none_response (a : Actor) (s : String) (ch ka : ChannelId)
    (h : mapFind a.active_requests s = some ch) :
    step a (.ExecutorResponseReceived s none ka) =
      ({ a with active_requests := mapRemove a.active_requests s },
       { continueOutput with replies := [(ch, none)] }) := by
  simp [step, Actor.handle_executor_response, h]

/-- Witness for C8 at a concrete pending entry. -/
theorem c8_none_response_witness :
    mapFind ([("camB", 7)] : List (String × ChannelId)) "camB" = some 7 ∧
    step { Actor.new "r1" with active_requests := [("camB", 7)] }
        (.ExecutorResponseReceived "camB" none 3) =
      ({ Actor.new "r1" with active_requests := mapRemove [("camB", 7)] "camB" },
       { continueOutput with replies := [(7, none)] }) :=
  ⟨by decide, c8_none_response { Actor.new "r1" with active_requests := [("camB", 7)] }
      "camB" 7 3 (by decide)⟩

/-- Claim C5: an Executor response `Some(w)` for a stream with a pending entry
bumps the cache (insert with count 1, or definition replaced and count
incremented), arms exactly one keep-alive watcher, makes exactly one reply
attempt carrying `Some(w.name)` (the attempt is made whether or not the peer
still listens), and attempts exactly one `UpsertWorkflow` with `request_id =
"reactor_{name}_stream_{stream}"` when a manager handle is registered and none
otherwise — the entry being cached either way. -/
theorem c5_some_response (a : Actor) (s : String) (ch ka : ChannelId)
    (w : WorkflowDefinition) (h : mapFind a.active_requests s = some ch) :
    (mapFind a.cached_workflows s = none →
       mapFind (step a (.ExecutorResponseReceived s (some w) ka)).1.cached_workflows s =
         some { definition := w, keep_alive_count := 1 }) ∧
    (∀ c, mapFind a.cached_workflows s = some c →
       mapFind (step a (.ExecutorResponseReceived s (some w) ka)).1.cached_workflows s =
         some { definition := w, keep_alive_count := c.keep_alive_count + 1 }) ∧
    (step a (.ExecutorResponseReceived s (some w) ka)).2.replies = [(ch, some w.name)] ∧
    (step a (.ExecutorResponseReceived s (some w) ka)).2.armedKeepAlive = [(ka, s)] ∧
    (∀ mgr, a.workflow_manager = some mgr →
       (step a (.ExecutorResponseReceived s (some w) ka)).2.managerSends =
         [{ channel := mgr, forStream := s
            request := { request_id := "reactor_" ++ a.name ++ "_stream_" ++ s
                         operation := .UpsertWorkflow w } }]) ∧
    (a.workflow_manager = none →
       (step a (.ExecutorResponseReceived s (some w) ka)).2.managerSends = []) := by
  cases hm : a.workflow_manager <;> cases hc : mapFind a.cached_workflows s <;>
    simp [step, Actor.handle_executor_response, h, hc, hm, mapFind_insert_self]

/-- Witness for C5: a pending request for `"camA"`, an empty cache and no
manager handle; the response installs the entry with count 1, replies
`Some("wfA")`, arms one watcher and attempts no upsert. -/
theorem c5_some_response_witness :
    mapFind actorPending.active_requests "camA" = some 10 ∧
    ((mapFind actorPending.cached_workflows "camA" = none →
        mapFind (step actorPending
            (.ExecutorResponseReceived "camA" (some wfA) 20)).1.cached_workflows "camA" =
          some { definition := wfA, keep_alive_count := 1 }) ∧
     (∀ c, mapFind actorPending.cached_workflows "camA" = some c →
        mapFind (step actorPending
            (.ExecutorResponseReceived "camA" (some wfA) 20)).1.cached_workflows "camA" =
          some { definition := wfA, keep_alive_count := c.keep_alive_count + 1 }) ∧
     (step actorPending
         (.ExecutorResponseReceived "camA" (some wfA) 20)).2.replies =
       [(10, some wfA.name)] ∧
     (step actorPending
         (.ExecutorResponseReceived "camA" (some wfA) 20)).2.armedKeepAlive =
       [(20, "camA")] ∧
     (∀ mgr, actorPending.workflow_manager = some mgr →
        (step actorPending
            (.ExecutorResponseReceived "camA" (some wfA) 20)).2.managerSends =
          [{ channel := mgr, forStream := "camA"
             request :=
               { request_id := "reactor_" ++ actorPending.name ++ "_stream_" ++ "camA"
                 operation := .UpsertWorkflow wfA } }]) ∧
     (actorPending.workflow_manager = none →
        (step actorPending
            (.ExecutorResponseReceived "camA" (some wfA) 20)).2.managerSends = [])) :=
  ⟨by decide, c5_some_response actorPending "camA" 10 20 wfA (by decide)⟩

/-- Claim C4: a keep-alive closure for a cached stream whose count is 1
removes the entry and attempts exactly one `StopWorkflow` with the removed
entry's definition name and `request_id = "from_reactor"` when (and only
when) a manager handle is registered; a closure that leaves the count above
zero keeps the entry with the decremented count and sends nothing. -/
theorem c4_keep_alive_release (a : Actor) (s : String) (c : CachedWorkflow)
    (h : mapFind a.cached_workflows s = some c) :
    (c.keep_alive_count = 1 →
       (step a (.KeepAliveChannelClosed s)).1.cached_workflows =
         mapRemove a.cached_workflows s ∧
       ((a.cached_workflows.map Prod.fst).Nodup →
          mapFind (step a (.KeepAliveChannelClosed s)).1.cached_workflows s = none) ∧
       (∀ mgr, a.workflow_manager = some mgr →
          (step a (.KeepAliveChannelClosed s)).2.managerSends =
            [{ channel := mgr, forStream := s
               request := { request_id := "from_reactor"
                            operation := .StopWorkflow c.definition.name } }]) ∧
       (a.workflow_manager = none →
          (step a (.KeepAliveChannelClosed s)).2.managerSends = [])) ∧
    (1 < c.keep_alive_count →
       (step a (.KeepAliveChannelClosed s)).2.managerSends = [] ∧
       mapFind (step a (.KeepAliveChannelClosed s)).1.cached_workflows s =
         some { c with keep_alive_count := c.keep_alive_count - 1 }) := by
  constructor
  · intro h1
    have hz : c.keep_alive_count - 1 = 0 := by omega
    cases hm : a.workflow_manager <;>
      simp [step, Actor.handle_keep_alive_closed, h, hz, hm] <;>
      exact fun hnd => mapFind_remove_self _ _ hnd
  · intro h2
    have hz : ¬ c.keep_alive_count - 1 = 0 := by omega
    cases hm : a.workflow_manager <;>
      simp [step, Actor.handle_keep_alive_closed, h, hz, hm, mapFind_insert_self,
        continueOutput]

/-- Witness for C4: a cache holding `"camA"` with count 1 and a registered
manager handle; closing the keep-alive removes the entry and attempts the
stop. -/
theorem c4_keep_alive_release_witness :
    mapFind actorCached.cached_workflows "camA" = some entryA ∧
    ((entryA.keep_alive_count = 1 →
       (step actorCached (.KeepAliveChannelClosed "camA")).1.cached_workflows =
         mapRemove actorCached.cached_workflows "camA" ∧
       ((actorCached.cached_workflows.map Prod.fst).Nodup →
          mapFind (step actorCached
            (.KeepAliveChannelClosed "camA")).1.cached_workflows "camA" = none) ∧
       (∀ mgr, actorCached.workflow_manager = some mgr →
          (step actorCached (.KeepAliveChannelClosed "camA")).2.managerSends =
            [{ channel := mgr, forStream := "camA"
               request := { request_id := "from_reactor"
                            operation := .StopWorkflow entryA.definition.name } }]) ∧
       (actorCached.workflow_manager = none →
          (step actorCached (.KeepAliveChannelClosed "camA")).2.managerSends = [])) ∧
     (1 < entryA.keep_alive_count →
       (step actorCached (.KeepAliveChannelClosed "camA")).2.managerSends = [] ∧
       mapFind (step actorCached
           (.KeepAliveChannelClosed "camA")).1.cached_workflows "camA" =
         some { entryA with keep_alive_count := entryA.keep_alive_count - 1 })) :=
  ⟨by decide, c4_keep_alive_release actorCached "camA" entryA (by decide)⟩

/-- Claim C6: the invariant `keep_alive_count ≥ 1` for every existing cache
entry holds at start and is preserved by every event the actor handles:
insertion uses count 1, bumps increment, and the only decrement removes the
entry the moment the count reaches 0. -/
theorem c6_keep_alive_count_positive (nm : String) (a : Actor) (e : FutureResult)
    (h : countsPos a) : countsPos (Actor.new nm) ∧ countsPos (step a e).1 := by
  constructor
  · intro p hp
    simp [Actor.new] at hp
  · cases e with
    | AllRequestConsumersGone => exact h
    | EventHubGone => exact h
    | WorkflowManagerGone => exact h
    | RequestReceived request =>
      cases request with
      | CreateWorkflowNameForStream s ch ka =>
        intro p hp
        exact h p hp
    | WorkflowManagerEventReceived event =>
      cases event with
      | WorkflowManagerRegistered ch =>
        intro p hp
        exact h p hp
    | KeepAliveChannelClosed s =>
      cases hc : mapFind a.cached_workflows s with
      | none =>
        simpa [step, Actor.handle_keep_alive_closed, hc] using h
      | some c =>
        by_cases hz : c.keep_alive_count - 1 = 0
        · intro p hp
          simp only [step, Actor.handle_keep_alive_closed, hc, hz, if_pos] at hp
          exact h p (mem_mapRemove hp)
        · intro p hp
          simp only [step, Actor.handle_keep_alive_closed, hc, hz, if_neg,
            not_false_iff] at hp
          rcases mem_mapInsert hp with h' | h'
          · subst h'
            simpa using Nat.one_le_iff_ne_zero.mpr hz
          · exact h p h'
    | ExecutorResponseReceived s w ka =>
      cases hp : mapFind a.active_requests s with
      | none =>
        simpa [step, Actor.handle_executor_response, hp] using h
      | some ch =>
        cases w with
        | none =>
          simpa [step, Actor.handle_executor_response, hp] using h
        | some wf =>
          cases hc : mapFind a.cached_workflows s with
          | none =>
            intro p hpm
            simp only [step, Actor.handle_executor_response, hp, hc] at hpm
            rcases mem_mapInsert hpm with h' | h'
            · subst h'
              simp
            · exact h p h'
          | some c =>
            intro p hpm
            simp only [step, Actor.handle_executor_response, hp, hc] at hpm
            rcases mem_mapInsert hpm with h' | h'
            · subst h'
              simp
            · exact h p h'

/-- Witness for C6 at the initial actor and a manager-gone event. -/
theorem c6_keep_alive_count_positive_witness :
    countsPos (Actor.new "r1") ∧
    (countsPos (Actor.new "r0") ∧
     countsPos (step (Actor.new "r1") FutureResult.WorkflowManagerGone).1) :=
  ⟨by simp [countsPos, Actor.new],
   c6_keep_alive_count_positive "r0" (Actor.new "r1")
      FutureResult.WorkflowManagerGone (by simp [countsPos, Actor.new])⟩

/-- Claim C2, counterexample: the claim predicts that after two
`CreateWorkflowNameForStream` requests for `"camA"` and both Executor
responses, the cache entry has `keep_alive_count = 2`.  Running the concrete
scenario `esC2` on the source semantics leaves the count at 1: the first
response consumed the (single) pending entry, so the second response took the
orphan path and performed no bump. -/
theorem c2_double_request_counterexample :
    ¬ ((mapFind (runState (Actor.new "r1") esC2).cached_workflows "camA").map
         CachedWorkflow.keep_alive_count = some 2) := by
  decide

/-- Claim C2, amended: when a second request for the same stream name arrives
while the first Executor call is outstanding, the new reply channel replaces
the old in the pending table and a second Executor future is spawned; but the
first Executor response handled consumes the single pending entry — it alone
bumps the cache (count 1), arms the sole keep-alive watcher and replies (to
the replacement channel) — and the second response finds no pending entry and
changes nothing. -/
theorem c2_double_request_amended (nm s : String) (ch1 ch2 ka1 ka2 : ChannelId)
    (w : WorkflowDefinition) :
    (runState (Actor.new nm)
        [.RequestReceived (.CreateWorkflowNameForStream s ch1 ka1),
         .RequestReceived (.CreateWorkflowNameForStream s ch2 ka2)]).active_requests =
      [(s, ch2)] ∧
    (step (runState (Actor.new nm)
          [.RequestReceived (.CreateWorkflowNameForStream s ch1 ka1)])
        (.RequestReceived (.CreateWorkflowNameForStream s ch2 ka2))).2.spawnedExecutors =
      [(s, ka2)] ∧
    (step (runState (Actor.new nm)
          [.RequestReceived (.CreateWorkflowNameForStream s ch1 ka1),
           .RequestReceived (.CreateWorkflowNameForStream s ch2 ka2)])
        (.ExecutorResponseReceived s (some w) ka1)).2.replies = [(ch2, some w.name)] ∧
    (step (runState (Actor.new nm)
          [.RequestReceived (.CreateWorkflowNameForStream s ch1 ka1),
           .RequestReceived (.CreateWorkflowNameForStream s ch2 ka2)])
        (.ExecutorResponseReceived s (some w) ka1)).2.armedKeepAlive = [(ka1, s)] ∧
    mapFind (runState (Actor.new nm)
        [.RequestReceived (.CreateWorkflowNameForStream s ch1 ka1),
         .RequestReceived (.CreateWorkflowNameForStream s ch2 ka2),
         .ExecutorResponseReceived s (some w) ka1]).cached_workflows s =
      some { definition := w, keep_alive_count := 1 } ∧
    step (runState (Actor.new nm)
        [.RequestReceived (.CreateWorkflowNameForStream s ch1 ka1),
         .RequestReceived (.CreateWorkflowNameForStream s ch2 ka2),
         .ExecutorResponseReceived s (some w) ka1])
      (.ExecutorResponseReceived s (some w) ka2) =
      (runState (Actor.new nm)
        [.RequestReceived (.CreateWorkflowNameForStream s ch1 ka1),
         .RequestReceived (.CreateWorkflowNameForStream s ch2 ka2),
         .ExecutorResponseReceived s (some w) ka1], continueOutput) := by
  simp [runState, step, Actor.handle_request, Actor.handle_executor_response,
    Actor.new, mapFind, mapInsert, mapRemove, continueOutput]

/-- A step taken with no registered manager handle, on an event that is not a
manager-event delivery, attempts no manager send and leaves the handle
unregistered. -/
theorem no_manager_step (a : Actor) (e : FutureResult)
    (hm : a.workflow_manager = none) (he : isManagerEvent e = false) :
    (step a e).2.managerSends = [] ∧ (step a e).1.workflow_manager = none := by
  cases e with
  | AllRequestConsumersGone => exact ⟨rfl, hm⟩
  | EventHubGone => exact ⟨rfl, hm⟩
  | WorkflowManagerGone => exact ⟨rfl, hm⟩
  | RequestReceived request =>
    cases request with
    | CreateWorkflowNameForStream s ch ka => exact ⟨rfl, hm⟩
  | WorkflowManagerEventReceived event => simp [isManagerEvent] at he
  | ExecutorResponseReceived s w ka =>
    cases hp : mapFind a.active_requests s with
    | none => simp [step, Actor.handle_executor_response, hp, hm, continueOutput]
    | some ch =>
      cases w with
      | none => simp [step, Actor.handle_executor_response, hp, hm, continueOutput]
      | some wf => simp [step, Actor.handle_executor_response, hp, hm, continueOutput]
  | KeepAliveChannelClosed s =>
    cases hc : mapFind a.cached_workflows s with
    | none => simp [step, Actor.handle_keep_alive_closed, hc, hm, continueOutput]
    | some c =>
      by_cases hz : c.keep_alive_count - 1 = 0 <;>
        simp [step, Actor.handle_keep_alive_closed, hc, hz, hm, continueOutput]

/-- Along any trace that starts with no registered manager handle and carries
no manager-event delivery, no step attempts a manager send. -/
theorem no_manager_trace (es : List FutureResult) :
    ∀ a : Actor, a.workflow_manager = none →
      (∀ e ∈ es, isManagerEvent e = false) →
      ∀ t ∈ trace a es, t.2.2.managerSends = [] := by
  induction es with
  | nil =>
    intro a hm he t ht
    simp [trace] at ht
  | cons e es ih =>
    intro a hm he t ht
    have hne : isManagerEvent e = false := he e (List.mem_cons_self e es)
    obtain ⟨hsend, hm'⟩ := no_manager_step a e hm hne
    by_cases hcont : (step a e).2.continues = true
    · simp only [trace, if_pos hcont] at ht
      rcases List.mem_cons.mp ht with rfl | ht'
      · exact hsend
      · exact ih (step a e).1 hm' (fun x hx => he x (List.mem_cons_of_mem e hx)) t ht'
    · simp only [trace, Bool.not_eq_true] at hcont
      simp only [trace, hcont, Bool.false_eq_true, if_false] at ht
      rcases List.mem_singleton.mp ht with rfl
      exact hsend

/-- Claim C10: when the event-hub subscription channel was already closed at
startup the failed subscription send is swallowed (`Actor::new` is the same
state either way: no manager handle), no manager-event delivery can ever
arrive, so along any such trace the actor emits no `WorkflowManagerRequest`
at all, and the closure of the delivery channel (`EventHubGone`) terminates
the actor cleanly without touching state. -/
theorem c10_closed_subscription (nm : String) (es : List FutureResult)
    (h : ∀ e ∈ es, isManagerEvent e = false) :
    (Actor.new nm).workflow_manager = none ∧
    (∀ t ∈ runTrace nm es, t.2.2.managerSends = []) ∧
    step (Actor.new nm) FutureResult.EventHubGone = (Actor.new nm, haltOutput) :=
  ⟨rfl, no_manager_trace es (Actor.new nm) rfl h, rfl⟩

/-- Witness for C10 on the concrete event list `esC10`. -/
theorem c10_closed_subscription_witness :
    (∀ e ∈ esC10, isManagerEvent e = false) ∧
    ((Actor.new "r1").workflow_manager = none ∧
     (∀ t ∈ runTrace "r1" esC10, t.2.2.managerSends = []) ∧
     step (Actor.new "r1") FutureResult.EventHubGone = (Actor.new "r1", haltOutput)) :=
  ⟨by decide, c10_closed_subscription "r1" esC10 (by decide)⟩

/-! ## Trace lemmas for claim C9 -/

theorem get_append_left {α : Type} (l1 l2 : List α) (i : Nat) (h1 : i < l1.length)
    (h : i < (l1 ++ l2).length) : (l1 ++ l2).get ⟨i, h⟩ = l1.get ⟨i, h1⟩ := by
  induction l1 generalizing i with
  | nil => simp at h1
  | cons x t ih =>
    cases i with
    | zero => rfl
    | succ n => exact ih n (by simpa using h1) (by simpa using h)

theorem get_append_last {α : Type} (l1 : List α) (x : α)
    (h : l1.length < (l1 ++ [x]).length) :
    (l1 ++ [x]).get ⟨l1.length, h⟩ = x := by
  induction l1 with
  | nil => rfl
  | cons y t ih => exact ih (by simp)

/-- Every step preserves duplicate-freeness of the cache's keys. -/
theorem wfKeys_step (a : Actor) (e : FutureResult) (h : wfKeys a) :
    wfKeys (step a e).1 := by
  cases e with
  | AllRequestConsumersGone => exact h
  | EventHubGone => exact h
  | WorkflowManagerGone => exact h
  | RequestReceived request =>
    cases request with
    | CreateWorkflowNameForStream s ch ka => exact h
  | WorkflowManagerEventReceived event =>
    cases event with
    | WorkflowManagerRegistered ch => exact h
  | ExecutorResponseReceived s w ka =>
    cases hp : mapFind a.active_requests s with
    | none => simpa [step, Actor.handle_executor_response, hp] using h
    | some ch =>
      cases w with
      | none => simpa [step, Actor.handle_executor_response, hp] using h
      | some wf =>
        cases hc : mapFind a.cached_workflows s with
        | none =>
          simp only [wfKeys, step, Actor.handle_executor_response, hp, hc]
          exact nodupKeys_mapInsert _ _ _ h
        | some c =>
          simp only [wfKeys, step, Actor.handle_executor_response, hp, hc]
          exact nodupKeys_mapInsert _ _ _ h
  | KeepAliveChannelClosed s =>
    cases hc : mapFind a.cached_workflows s with
    | none => simpa [step, Actor.handle_keep_alive_closed, hc] using h
    | some c =>
      by_cases hz : c.keep_alive_count - 1 = 0
      · simp only [wfKeys, step, Actor.handle_keep_alive_closed, hc, hz, if_pos]
        exact nodupKeys_mapRemove _ _ h
      · simp only [wfKeys, step, Actor.handle_keep_alive_closed, hc, hz, if_neg,
          not_false_iff]
        exact nodupKeys_mapInsert _ _ _ h

/-- A `StopWorkflow` attempt concerning stream `s` can only come from a
keep-alive closure for `s` that finds a cached entry, drops its count to 0,
has a registered manager handle, and removes the entry. -/
theorem stop_inversion (a : Actor) (e : FutureResult) (s : String)
    (h : sendsStopFor (step a e).2 s = true) :
    ∃ c, e = .KeepAliveChannelClosed s ∧ mapFind a.cached_workflows s = some c ∧
      c.keep_alive_count - 1 = 0 ∧ a.workflow_manager.isSome = true ∧
      (step a e).1.cached_workflows = mapRemove a.cached_workflows s := by
  cases e with
  | AllRequestConsumersGone => simp [sendsStopFor, step, haltOutput] at h
  | EventHubGone => simp [sendsStopFor, step, haltOutput] at h
  | WorkflowManagerGone => simp [sendsStopFor, step, haltOutput] at h
  | RequestReceived request =>
    cases request with
    | CreateWorkflowNameForStream t ch ka =>
      simp [sendsStopFor, step, Actor.handle_request, continueOutput] at h
  | WorkflowManagerEventReceived event =>
    cases event with
    | WorkflowManagerRegistered ch =>
      exfalso
      simp [sendsStopFor, step, Actor.handle_workflow_manager_event, continueOutput,
        List.any_map, Function.comp] at h
      obtain ⟨x, ⟨k2, b2, hmem, hx⟩, hfs, hop⟩ := h
      subst hx
      simp [isStopOp] at hop
  | ExecutorResponseReceived t w ka =>
    cases hp : mapFind a.active_requests t with
    | none =>
      simp [sendsStopFor, step, Actor.handle_executor_response, hp, continueOutput] at h
    | some ch =>
      cases w with
      | none =>
        simp [sendsStopFor, step, Actor.handle_executor_response, hp, continueOutput] at h
      | some wf =>
        cases hm : a.workflow_manager with
        | none =>
          simp [sendsStopFor, step, Actor.handle_executor_response, hp, hm,
            continueOutput] at h
        | some mgr =>
          simp [sendsStopFor, step, Actor.handle_executor_response, hp, hm,
            continueOutput, isStopOp] at h
  | KeepAliveChannelClosed t =>
    cases hc : mapFind a.cached_workflows t with
    | none =>
      simp [sendsStopFor, step, Actor.handle_keep_alive_closed, hc, continueOutput] at h
    | some c =>
      by_cases hz : c.keep_alive_count - 1 = 0
      · cases hm : a.workflow_manager with
        | none =>
          simp [sendsStopFor, step, Actor.handle_keep_alive_closed, hc, hz, hm,
            continueOutput] at h
        | some mgr =>
          have hts : t = s := by
            simpa [sendsStopFor, step, Actor.handle_keep_alive_closed, hc, hz, hm,
              continueOutput, isStopOp] using h
          subst hts
          refine ⟨c, rfl, hc, hz, by simp [hm], ?_⟩
          simp [step, Actor.handle_keep_alive_closed, hc, hz, hm]
      · simp [sendsStopFor, step, Actor.handle_keep_alive_closed, hc, hz,
          continueOutput] at h

/-- Lifting an `InvC9` witness for a stream that stays cached across the
appended step whose pre-state is the current state. -/
theorem invC9_lift (a : Actor) (x : Triple) (tr : List Triple)
    (hInv : InvC9 a tr) (s : String)
    (hm : a.workflow_manager.isSome = true) (hc : inCache a s = true)
    (hx : x.1 = a) :
    ∃ j, ∃ hj : j < (tr ++ [x]).length,
      sendsUpsertFor ((tr ++ [x]).get ⟨j, hj⟩).2.2 s = true ∧
      ∀ k, ∀ hk : k < (tr ++ [x]).length, j < k →
        inCache ((tr ++ [x]).get ⟨k, hk⟩).1 s = true := by
  obtain ⟨j, hj, hup, hmem⟩ := hInv s hm hc
  have hj' : j < (tr ++ [x]).length := by
    simp only [List.length_append, List.length_singleton]
    omega
  refine ⟨j, hj', ?_, ?_⟩
  · rw [get_append_left tr [x] j hj hj']
    exact hup
  · intro k hk hjk
    by_cases hkl : k < tr.length
    · rw [get_append_left tr [x] k hkl hk]
      exact hmem k hkl hjk
    · have hke : k = tr.length := by
        simp only [List.length_append, List.length_singleton] at hk
        omega
      subst hke
      rw [get_append_last tr x hk, hx]
      exact hc

/-- An `InvC9` witness provided by an upsert attempt in the appended step
itself. -/
theorem invC9_fresh (x : Triple) (tr : List Triple) (s : String)
    (hup : sendsUpsertFor x.2.2 s = true) :
    ∃ j, ∃ hj : j < (tr ++ [x]).length,
      sendsUpsertFor ((tr ++ [x]).get ⟨j, hj⟩).2.2 s = true ∧
      ∀ k, ∀ hk : k < (tr ++ [x]).length, j < k →
        inCache ((tr ++ [x]).get ⟨k, hk⟩).1 s = true := by
  have hlen : tr.length < (tr ++ [x]).length := by
    simp only [List.length_append, List.length_singleton]
    omega
  refine ⟨tr.length, hlen, ?_, ?_⟩
  · rw [get_append_last tr x hlen]
    exact hup
  · intro k hk hjk
    exfalso
    simp only [List.length_append, List.length_singleton] at hk
    omega

/-- The history invariant `InvC9` is preserved by any step (appended to the
history). -/
theorem invC9_step (a : Actor) (e : FutureResult) (tr : List Triple)
    (hwf : wfKeys a) (hInv : InvC9 a tr) :
    InvC9 (step a e).1 (tr ++ [(a, e, (step a e).2)]) := by
  intro s hm' hc'
  cases e with
  | AllRequestConsumersGone => exact invC9_lift a _ tr hInv s hm' hc' rfl
  | EventHubGone => exact invC9_lift a _ tr hInv s hm' hc' rfl
  | WorkflowManagerGone => exact invC9_lift a _ tr hInv s hm' hc' rfl
  | RequestReceived request =>
    cases request with
    | CreateWorkflowNameForStream t ch ka =>
      exact invC9_lift a _ tr hInv s hm' hc' rfl
  | WorkflowManagerEventReceived event =>
    cases event with
    | WorkflowManagerRegistered ch =>
      have hc : inCache a s = true := hc'
      obtain ⟨c, hcfind⟩ : ∃ c, mapFind a.cached_workflows s = some c := by
        cases hfind : mapFind a.cached_workflows s with
        | none => simp [inCache, hfind] at hc
        | some c => exact ⟨c, rfl⟩
      apply invC9_fresh
      show sendsUpsertFor
        (step a (.WorkflowManagerEventReceived (.WorkflowManagerRegistered ch))).2 s = true
      simp only [sendsUpsertFor, step, Actor.handle_workflow_manager_event,
        List.any_eq_true]
      refine ⟨{ channel := ch, forStream := s
                request := { request_id := "reactor_" ++ a.name ++ "_cache_catchup"
                             operation := .UpsertWorkflow c.definition } }, ?_, ?_⟩
      · exact List.mem_map.mpr ⟨(s, c), mapFind_mem hcfind, rfl⟩
      · simp [isUpsertOp]
  | ExecutorResponseReceived t w ka =>
    cases hp : mapFind a.active_requests t with
    | none =>
      have hstate : (step a (.ExecutorResponseReceived t w ka)).1 = a := by
        simp [step, Actor.handle_executor_response, hp]
      rw [hstate] at hm' hc'
      exact invC9_lift a _ tr hInv s hm' hc' rfl
    | some ch =>
      cases w with
      | none =>
        have hwm0 : (step a (.ExecutorResponseReceived t none ka)).1.workflow_manager =
            a.workflow_manager := by
          simp [step, Actor.handle_executor_response, hp]
        have hm2 : a.workflow_manager.isSome = true := by
          rw [hwm0] at hm'
          exact hm'
        have hc2 : inCache a s = true := by
          have hcc : (step a (.ExecutorResponseReceived t none ka)).1.cached_workflows =
              a.cached_workflows := by
            simp [step, Actor.handle_executor_response, hp]
          rw [inCache, hcc] at hc'
          exact hc'
        exact invC9_lift a _ tr hInv s hm2 hc2 rfl
      | some wf =>
        have hwm : (step a (.ExecutorResponseReceived t (some wf) ka)).1.workflow_manager =
            a.workflow_manager := by
          simp [step, Actor.handle_executor_response, hp]
        have hm2 : a.workflow_manager.isSome = true := by
          rw [hwm] at hm'
          exact hm'
        by_cases hts : s = t
        · subst hts
          obtain ⟨mgr, hmgr⟩ : ∃ mgr, a.workflow_manager = some mgr := by
            cases hmm : a.workflow_manager with
            | none => rw [hmm] at hm2; simp at hm2
            | some mgr => exact ⟨mgr, rfl⟩
          apply invC9_fresh
          show sendsUpsertFor (step a (.ExecutorResponseReceived s (some wf) ka)).2 s = true
          simp [sendsUpsertFor, step, Actor.handle_executor_response, hp, hmgr, isUpsertOp]
        · cases hcfind : mapFind a.cached_workflows t with
          | none =>
            have hcc : (step a (.ExecutorResponseReceived t (some wf) ka)).1.cached_workflows =
                mapInsert a.cached_workflows t
                  { definition := wf, keep_alive_count := 1 } := by
              simp [step, Actor.handle_executor_response, hp, hcfind]
            have hc2 : inCache a s = true := by
              rw [inCache, hcc, mapFind_insert_ne _ _ _ _ hts] at hc'
              exact hc'
            exact invC9_lift a _ tr hInv s hm2 hc2 rfl
          | some c0 =>
            have hcc : (step a (.ExecutorResponseReceived t (some wf) ka)).1.cached_workflows =
                mapInsert a.cached_workflows t
                  { definition := wf, keep_alive_count := c0.keep_alive_count + 1 } := by
              simp [step, Actor.handle_executor_response, hp, hcfind]
            have hc2 : inCache a s = true := by
              rw [inCache, hcc, mapFind_insert_ne _ _ _ _ hts] at hc'
              exact hc'
            exact invC9_lift a _ tr hInv s hm2 hc2 rfl
  | KeepAliveChannelClosed t =>
    cases hcfind : mapFind a.cached_workflows t with
    | none =>
      have hstate : (step a (.KeepAliveChannelClosed t)).1 = a := by
        simp [step, Actor.handle_keep_alive_closed, hcfind]
      rw [hstate] at hm' hc'
      exact invC9_lift a _ tr hInv s hm' hc' rfl
    | some c =>
      have hwm : (step a (.KeepAliveChannelClosed t)).1.workflow_manager =
          a.workflow_manager := by
        by_cases hz : c.keep_alive_count - 1 = 0 <;>
          simp [step, Actor.handle_keep_alive_closed, hcfind, hz]
      have hm2 : a.workflow_manager.isSome = true := by
        rw [hwm] at hm'
        exact hm'
      by_cases hz : c.keep_alive_count - 1 = 0
      · have hcc : (step a (.KeepAliveChannelClosed t)).1.cached_workflows =
            mapRemove a.cached_workflows t := by
          simp [step, Actor.handle_keep_alive_closed, hcfind, hz]
        by_cases hts : s = t
        · exfalso
          subst hts
          rw [inCache, hcc, mapFind_remove_self _ _ hwf] at hc'
          simp at hc'
        · have hc2 : inCache a s = true := by
            rw [inCache, hcc, mapFind_remove_ne _ _ _ hts] at hc'
            exact hc'
          exact invC9_lift a _ tr hInv s hm2 hc2 rfl
      · have hcc : (step a (.KeepAliveChannelClosed t)).1.cached_workflows =
            mapInsert a.cached_workflows t
              { c with keep_alive_count := c.keep_alive_count - 1 } := by
          simp [step, Actor.handle_keep_alive_closed, hcfind, hz]
        by_cases hts : s = t
        · subst hts
          have hc2 : inCache a s = true := by
            simp [inCache, hcfind]
          exact invC9_lift a _ tr hInv s hm2 hc2 rfl
        · have hc2 : inCache a s = true := by
            rw [inCache, hcc, mapFind_insert_ne _ _ _ _ hts] at hc'
            exact hc'
          exact invC9_lift a _ tr hInv s hm2 hc2 rfl

/-- Appending one step to a history that satisfies the invariants preserves
the per-trace statement of claim C9. -/
theorem traceOK_snoc (s : String) (a : Actor) (e : FutureResult) (tr : List Triple)
    (hwf : wfKeys a) (hInv : InvC9 a tr) (hOK : TraceOK s tr) :
    TraceOK s (tr ++ [(a, e, (step a e).2)]) := by
  intro i hi hstop
  by_cases hil : i < tr.length
  · have hstop' : sendsStopFor (tr.get ⟨i, hil⟩).2.2 s = true := by
      rw [get_append_left tr _ i hil hi] at hstop
      exact hstop
    obtain ⟨h1, h2, j, hj, hji, hup, hmem⟩ := hOK i hil hstop'
    have hj' : j < (tr ++ [(a, e, (step a e).2)]).length := by
      simp only [List.length_append, List.length_singleton]
      omega
    refine ⟨?_, ?_, j, hj', hji, ?_, ?_⟩
    · rw [get_append_left tr _ i hil hi]
      exact h1
    · rw [get_append_left tr _ i hil hi]
      exact h2
    · rw [get_append_left tr _ j hj hj']
      exact hup
    · intro k hk hjk hki
      have hkl : k < tr.length := lt_of_le_of_lt hki hil
      rw [get_append_left tr _ k hkl hk]
      exact hmem k hkl hjk hki
  · have hieq : i = tr.length := by
      simp only [List.length_append, List.length_singleton] at hi
      omega
    subst hieq
    have hx : (tr ++ [(a, e, (step a e).2)]).get ⟨tr.length, hi⟩ =
        (a, e, (step a e).2) := get_append_last tr _ hi
    rw [hx] at hstop
    obtain ⟨c, hev, hcfind, hz, hm, hcc⟩ := stop_inversion a e s hstop
    have hcA : inCache a s = true := by
      simp [inCache, hcfind]
    refine ⟨?_, ?_, ?_⟩
    · rw [hx]
      exact hcA
    · rw [hx]
      show inCache (step a e).1 s = false
      rw [inCache, hcc, mapFind_remove_self _ _ hwf]
      rfl
    · obtain ⟨j, hj, hup, hmem⟩ := hInv s hm hcA
      have hj' : j < (tr ++ [(a, e, (step a e).2)]).length := by
        simp only [List.length_append, List.length_singleton]
        omega
      refine ⟨j, hj', by omega, ?_, ?_⟩
      · rw [get_append_left tr _ j hj hj']
        exact hup
      · intro k hk hjk hki
        by_cases hkl : k < tr.length
        · rw [get_append_left tr _ k hkl hk]
          exact hmem k hkl hjk
        · have hke : k = tr.length := by
            simp only [List.length_append, List.length_singleton] at hk
            omega
          subst hke
          rw [hx]
          exact hcA

/-- Claim C9's per-trace statement holds for any continuation of a history
satisfying the invariants. -/
theorem c9_aux (s : String) : ∀ (es : List FutureResult) (a : Actor) (pre : List Triple),
    wfKeys a → InvC9 a pre → TraceOK s pre →
    TraceOK s (pre ++ trace a es) := by
  intro es
  induction es with
  | nil =>
    intro a pre hwf hInv hOK
    simpa [trace] using hOK
  | cons e es ih =>
    intro a pre hwf hInv hOK
    by_cases hcont : (step a e).2.continues = true
    · have htr : trace a (e :: es) = (a, e, (step a e).2) :: trace (step a e).1 es := by
        simp [trace, hcont]
      rw [htr]
      have hsplit : pre ++ (a, e, (step a e).2) :: trace (step a e).1 es =
          (pre ++ [(a, e, (step a e).2)]) ++ trace (step a e).1 es := by
        simp
      rw [hsplit]
      exact ih (step a e).1 (pre ++ [(a, e, (step a e).2)])
        (wfKeys_step a e hwf) (invC9_step a e pre hwf hInv)
        (traceOK_snoc s a e pre hwf hInv hOK)
    · have hcf : (step a e).2.continues = false := by
        simpa using hcont
      have htr : trace a (e :: es) = [(a, e, (step a e).2)] := by
        simp [trace, hcf]
      rw [htr]
      exact traceOK_snoc s a e pre hwf hInv hOK

/-- The first recorded pre-state of a nonempty trace is the starting state. -/
theorem trace_get_zero (es : List FutureResult) (a : Actor)
    (h : 0 < (trace a es).length) : ((trace a es).get ⟨0, h⟩).1 = a := by
  cases es with
  | nil => simp [trace] at h
  | cons e es =>
    by_cases hcont : (step a e).2.continues = true
    · simp [trace, hcont]
    · have hcf : (step a e).2.continues = false := by
        simpa using hcont
      simp [trace, hcf]

/-- Consecutive trace entries are related by `step`: the pre-state of entry
`i+1` is the post-state of entry `i`. -/
theorem trace_adjacent (es : List FutureResult) : ∀ (a : Actor) (i : Nat)
    (h1 : i + 1 < (trace a es).length) (h0 : i < (trace a es).length),
    ((trace a es).get ⟨i + 1, h1⟩).1 =
      (step ((trace a es).get ⟨i, h0⟩).1 ((trace a es).get ⟨i, h0⟩).2.1).1 := by
  induction es with
  | nil =>
    intro a i h1 h0
    simp [trace] at h1
  | cons e es ih =>
    intro a i h1 h0
    by_cases hcont : (step a e).2.continues = true
    · have htr : trace a (e :: es) = (a, e, (step a e).2) :: trace (step a e).1 es := by
        simp [trace, hcont]
      cases i with
      | zero =>
        have hlen : 0 < (trace (step a e).1 es).length := by
          rw [htr] at h1
          simpa using h1
        have h1' : (1 : Nat) < (trace a (e :: es)).length := h1
        calc ((trace a (e :: es)).get ⟨1, h1⟩).1
            = ((trace (step a e).1 es).get ⟨0, hlen⟩).1 := by
              rw [List.get_of_eq htr]
              rfl
          _ = (step a e).1 := trace_get_zero es (step a e).1 hlen
          _ = (step ((trace a (e :: es)).get ⟨0, h0⟩).1
                ((trace a (e :: es)).get ⟨0, h0⟩).2.1).1 := by
              rw [List.get_of_eq htr]
              rfl
      | succ n =>
        have h1t : n + 1 + 1 < ((a, e, (step a e).2) :: trace (step a e).1 es).length := by
          rw [htr] at h1
          exact h1
        have hn1 : n + 1 < (trace (step a e).1 es).length := by
          simpa using h1t
        have hn0 : n < (trace (step a e).1 es).length := by omega
        calc ((trace a (e :: es)).get ⟨n + 2, h1⟩).1
            = ((trace (step a e).1 es).get ⟨n + 1, hn1⟩).1 := by
              rw [List.get_of_eq htr]
              rfl
          _ = (step ((trace (step a e).1 es).get ⟨n, hn0⟩).1
                ((trace (step a e).1 es).get ⟨n, hn0⟩).2.1).1 :=
              ih (step a e).1 n hn1 hn0
          _ = (step ((trace a (e :: es)).get ⟨n + 1, h0⟩).1
                ((trace a (e :: es)).get ⟨n + 1, h0⟩).2.1).1 := by
              rw [List.get_of_eq htr]
              rfl
    · have hcf : (step a e).2.continues = false := by
        simpa using hcont
      have htr : trace a (e :: es) = [(a, e, (step a e).2)] := by
        simp [trace, hcf]
      rw [htr] at h1
      simp at h1

/-- Claim C9: along any execution of a freshly started reactor, every
`StopWorkflow` attempt concerning a stream `s` is emitted at a step that
removes `s` from the cache and is preceded, within the same cache lifetime,
by at least one `UpsertWorkflow` attempt concerning `s`; consequently two
stop attempts for `s` are always separated by a state in which `s` is not
cached (a new lifetime). -/
theorem c9_upsert_before_stop (nm : String) (es : List FutureResult) (s : String) :
    TraceOK s (runTrace nm es) ∧
    (∀ i1 i2, ∀ h1 : i1 < (runTrace nm es).length, ∀ h2 : i2 < (runTrace nm es).length,
      i1 < i2 →
      sendsStopFor ((runTrace nm es).get ⟨i1, h1⟩).2.2 s = true →
      sendsStopFor ((runTrace nm es).get ⟨i2, h2⟩).2.2 s = true →
      ∃ k, ∃ hk : k < (runTrace nm es).length, i1 < k ∧ k ≤ i2 ∧
        inCache ((runTrace nm es).get ⟨k, hk⟩).1 s = false) := by
  have hOK : TraceOK s (runTrace nm es) := by
    have haux := c9_aux s es (Actor.new nm) []
      (by simp [wfKeys, Actor.new])
      (by intro t hm hc; simp [Actor.new] at hm)
      (by intro i hi; simp at hi)
    simpa [runTrace] using haux
  refine ⟨hOK, ?_⟩
  intro i1 i2 h1 h2 h12 hs1 hs2
  have hk1 : i1 + 1 < (runTrace nm es).length := by omega
  refine ⟨i1 + 1, hk1, by omega, by omega, ?_⟩
  have hadj : ((runTrace nm es).get ⟨i1 + 1, hk1⟩).1 =
      (step ((runTrace nm es).get ⟨i1, h1⟩).1 ((runTrace nm es).get ⟨i1, h1⟩).2.1).1 :=
    trace_adjacent es (Actor.new nm) i1 hk1 h1
  rw [hadj]
  exact (hOK i1 h1 hs1).2.1

/-- Witness for C9 on the concrete lifecycle trace `esC9` (request,
registration, executor response, keep-alive closure): the trace has four
steps and satisfies the per-trace statement for `"camA"`. -/
theorem c9_upsert_before_stop_witness :
    (runTrace "r1" esC9).length = 4 ∧ TraceOK "camA" (runTrace "r1" esC9) :=
  ⟨by decide, (c9_upsert_before_stop "r1" esC9 "camA").1⟩

end MmidsReactor
